import Mathlib

/-!
Verification of the revng "tuple-tree" document model: the generic structural
diff engine (`_make_diff` / `_make_diff_subtree`), the patch engine
(`_validate_diff` / `_apply_diff`), path resolution (`_get_element_by_path`,
`_get_parent_element_by_path`, `_get_type_info`) and change-set hydration
(`_parse_diff` / `construct_type`) from
`src/python/revng/tupletree/__init__.py`.

The embedding is a deep model of runtime Python values (`PyVal`): generated
dataclass instances become `vStruct` nodes carrying the class name and the
ordered field assignment, `TypedList` containers become `vList` nodes carrying
their base-class name, scalars map to `vStr` / `vInt` / `vBool`, and Python
`None` to `vNone`.  Enum members are represented by their value string (the
generator emits members whose name equals their value) and `Reference` objects
by their reference string (`_ref_str`; the cached `referenced_obj` of a
document-attached reference is not modelled, so reference equality is string
equality).  Class-level data of the generated classes (the `TypeHints`
dictionary, `_children` registries of abstract families, and key-field lists
backing the generated `key()` / `parseKey` methods, produced by
`PythonGenerator.type_hint`, `gen_key` and `key_parser` in
`src/scripts/tuple_tree_generator/tuple_tree_generator/generators/python.py`)
is passed around explicitly as a `Schema` value.

Python exceptions and exhausted recursion fuel are both modelled as `none`:
a function returning `some r` corresponds to a Python call that terminates
normally with result `r`.  In-place mutation performed by `_apply_diff` on the
deep copy of its input is modelled by pure path-based rebuilding of the tree;
the input document is untouched by construction, exactly as the Python code
never touches `obj` after `new_obj = deepcopy(obj)`.
-/

/-- Runtime Python values of the tuple-tree document model.  `vStruct` is a
dataclass instance (class name and ordered fields), `vList` a `TypedList`
(base class name and elements), `vNone` the Python `None`. -/
inductive PyVal where
  | vNone : PyVal
  | vStr (s : String) : PyVal
  | vInt (n : Int) : PyVal
  | vBool (b : Bool) : PyVal
  | vStruct (typeName : String) (flds : List (String × PyVal)) : PyVal
  | vList (baseClass : String) (elems : List PyVal) : PyVal

open PyVal

mutual
/-- Python `==` on modelled values: dataclass equality compares the class and
the field tuple, `TypedList.__eq__` compares the base class and `_data`. -/
def pyBeq : PyVal → PyVal → Bool
  | vNone, vNone => true
  | vStr s, vStr t => s == t
  | vInt n, vInt m => n == m
  | vBool a, vBool b => a == b
  | vStruct n fs, vStruct m gs => n == m && pyBeqFields fs gs
  | vList b xs, vList c ys => b == c && pyBeqList xs ys
  | _, _ => false

def pyBeqFields : List (String × PyVal) → List (String × PyVal) → Bool
  | [], [] => true
  | (k, v) :: r, (k', v') :: r' => k == k' && pyBeq v v' && pyBeqFields r r'
  | _, _ => false

def pyBeqList : List PyVal → List PyVal → Bool
  | [], [] => true
  | v :: r, v' :: r' => pyBeq v v' && pyBeqList r r'
  | _, _ => false
end

def pyBeqIffAux : ∀ n, ∀ a b : PyVal, sizeOf a ≤ n → (pyBeq a b = true ↔ a = b) := by
  intro n
  induction n with
  | zero => intro a b h; cases a <;> simp at h
  | succ n ih =>
    intro a b h
    cases a with
    | vNone => cases b <;> simp [pyBeq]
    | vStr s => cases b <;> simp [pyBeq]
    | vInt m => cases b <;> simp [pyBeq]
    | vBool v => cases b <;> simp [pyBeq]
    | vStruct nm fs =>
      cases b with
      | vStruct nm' gs =>
        simp only [pyBeq, Bool.and_eq_true, beq_iff_eq, PyVal.vStruct.injEq]
        have hfs : ∀ gs', pyBeqFields fs gs' = true ↔ fs = gs' := by
          have hmem : ∀ p ∈ fs, ∀ b', pyBeq p.2 b' = true ↔ p.2 = b' := by
            intro p hp b'
            apply ih
            have h1 := List.sizeOf_lt_of_mem hp
            have h2 : sizeOf p.2 < sizeOf p := by
              obtain ⟨x, y⟩ := p; simp
            simp at h h1 ⊢
            omega
          clear h
          induction fs with
          | nil => intro gs'; cases gs' <;> simp [pyBeqFields]
          | cons p r ihr =>
            intro gs'
            cases gs' with
            | nil => simp [pyBeqFields]
            | cons q r' =>
              obtain ⟨k, v⟩ := p
              obtain ⟨k', v'⟩ := q
              simp only [pyBeqFields, Bool.and_eq_true, beq_iff_eq, List.cons.injEq,
                Prod.mk.injEq]
              rw [hmem ⟨k, v⟩ (by simp) v', ihr (fun p hp => hmem p (by simp [hp]))]
        rw [hfs]
      | vNone => simp [pyBeq]
      | vStr _ => simp [pyBeq]
      | vInt _ => simp [pyBeq]
      | vBool _ => simp [pyBeq]
      | vList _ _ => simp [pyBeq]
    | vList bc es =>
      cases b with
      | vList bc' es' =>
        simp only [pyBeq, Bool.and_eq_true, beq_iff_eq, PyVal.vList.injEq]
        have hes : ∀ es'', pyBeqList es es'' = true ↔ es = es'' := by
          have hmem : ∀ v ∈ es, ∀ b', pyBeq v b' = true ↔ v = b' := by
            intro v hv b'
            apply ih
            have h1 := List.sizeOf_lt_of_mem hv
            simp at h h1 ⊢
            omega
          clear h
          induction es with
          | nil => intro es''; cases es'' <;> simp [pyBeqList]
          | cons v r ihr =>
            intro es''
            cases es'' with
            | nil => simp [pyBeqList]
            | cons v' r' =>
              simp only [pyBeqList, Bool.and_eq_true, List.cons.injEq]
              rw [hmem v (by simp) v', ihr (fun p hp => hmem p (by simp [hp]))]
        rw [hes]
      | vNone => simp [pyBeq]
      | vStr _ => simp [pyBeq]
      | vInt _ => simp [pyBeq]
      | vBool _ => simp [pyBeq]
      | vStruct _ _ => simp [pyBeq]

def pyBeqIff (a b : PyVal) : pyBeq a b = true ↔ a = b :=
  pyBeqIffAux (sizeOf a) a b (Nat.le_refl _)

instance : BEq PyVal := ⟨pyBeq⟩

instance : LawfulBEq PyVal where
  eq_of_beq h := (pyBeqIff _ _).mp h
  rfl := (pyBeqIff _ _).mpr rfl

instance : DecidableEq PyVal := fun a b => decidable_of_iff _ (pyBeqIff a b)

/-- Python truthiness (`bool(x)`): `None`, `""`, `0`, `False` and empty
containers are falsy; dataclass instances are always truthy. -/
def pyTruthy : PyVal → Bool
  | vNone => false
  | vStr s => s != ""
  | vInt n => n != 0
  | vBool b => b
  | vStruct _ _ => true
  | vList _ es => !es.isEmpty

/-- Truthiness of an optional value: Python `if x:` where `x` may be `None`. -/
def optTruthy : Option PyVal → Bool
  | none => false
  | some v => pyTruthy v

/-- Effectful map over `Option` (a Python loop whose body may raise),
spelled out for easy unfolding in proofs. -/
def mapMOpt {α β : Type} (g : α → Option β) : List α → Option (List β)
  | [] => some []
  | a :: r => do
      let b ← g a
      let rs ← mapMOpt g r
      some (b :: rs)

/-- Effectful left fold over `Option` (a Python loop threading state whose
body may raise), spelled out for easy unfolding in proofs. -/
def foldlMOpt {α β : Type} (g : β → α → Option β) : β → List α → Option β
  | b, [] => some b
  | b, a :: r => do
      let b' ← g b a
      foldlMOpt g b' r

/-- Structural splitter behind `pySplitOn` (fuel is the character count, so
it never runs out for a non-empty separator). -/
def splitSubFuel (sep : List Char) : Nat → List Char → List (List Char)
  | 0, _ => [[]]
  | _ + 1, [] => [[]]
  | f + 1, c :: rest =>
      if sep.isPrefixOf (c :: rest) then
        [] :: splitSubFuel sep f ((c :: rest).drop sep.length)
      else
        match splitSubFuel sep f rest with
        | [] => [[c]]
        | h :: t => (c :: h) :: t

/-- Python `s.split(sep)` for a non-empty separator (`"".split(sep)` is
`[""]`), implemented structurally so that concrete paths evaluate in the
kernel. -/
def pySplitOn (sep : String) (s : String) : List String :=
  (splitSubFuel sep.data s.data.length s.data).map (fun cs => String.mk cs)

/-- Python substring test `"::" in component`. -/
def hasColons (component : String) : Bool :=
  (pySplitOn "::" component).length > 1

def digitsValAux : Nat → List Char → Option Nat
  | acc, [] => some acc
  | acc, c :: r =>
      if c.isDigit then digitsValAux (acc * 10 + (c.toNat - 48)) r else none

def digitsVal : List Char → Option Nat
  | [] => none
  | l => digitsValAux 0 l

/-- Python `int(s)` on a plain decimal literal with an optional sign;
anything else raises (`none`). -/
def pyParseInt (s : String) : Option Int :=
  match s.data with
  | '-' :: rest => (digitsVal rest).map (fun n => -(n : Int))
  | '+' :: rest => (digitsVal rest).map (fun n => (n : Int))
  | l => (digitsVal l).map (fun n => (n : Int))

def pyQuote : String := String.singleton '\''

mutual
/-- Python `repr` of a modelled value (dataclass / list reprs, quoted
strings), used as the building block of `str`. -/
def pyRepr : PyVal → String
  | vNone => "None"
  | vStr s => pyQuote ++ s ++ pyQuote
  | vInt n => toString n
  | vBool b => if b then "True" else "False"
  | vStruct n fs => n ++ "(" ++ pyReprFields fs ++ ")"
  | vList _ es => "[" ++ pyReprList es ++ "]"

def pyReprFields : List (String × PyVal) → String
  | [] => ""
  | [(k, v)] => k ++ "=" ++ pyRepr v
  | (k, v) :: r => k ++ "=" ++ pyRepr v ++ ", " ++ pyReprFields r

def pyReprList : List PyVal → String
  | [] => ""
  | [v] => pyRepr v
  | v :: r => pyRepr v ++ ", " ++ pyReprList r
end

/-- Python `str(x)`: the bare string for `str` values (enum members and
references are modelled through their value string), `repr` otherwise. -/
def pyStr : PyVal → String
  | vStr s => s
  | v => pyRepr v

/-- Python `type(x).__name__`.  All `TypedList` containers share the single
class `TypedList`, so `type(old) is type(new)` holds for any two of them. -/
def pyType : PyVal → String
  | vNone => "NoneType"
  | vStr _ => "str"
  | vInt _ => "int"
  | vBool _ => "bool"
  | vStruct n _ => n
  | vList _ _ => "TypedList"

/-- Models `getattr(obj, name)` restricted to dataclass fields; `none` models the
`AttributeError` raised on anything else. -/
def pyGetattr : PyVal → String → Option PyVal
  | vStruct _ fs, name => fs.lookup name
  | _, _ => none

/-- Models `setattr(parent, name, v)`.  `StructBase.__setattr__` rejects names that
are neither declared fields nor `_`-prefixed; setting an attribute on a
`TypedList` succeeds but is invisible to equality and serialization, hence a
no-op here; builtins raise. -/
def pySetattr : PyVal → String → PyVal → Option PyVal
  | vStruct n fs, name, v =>
      if (fs.lookup name).isSome then
        some (vStruct n (fs.map (fun p => if p.1 == name then (p.1, v) else p)))
      else if (match name.data with | c :: _ => c == '_' | [] => false) then some (vStruct n fs)
      else none
  | vList b es, _, _ => some (vList b es)
  | _, _, _ => none

/-- The `ctor` tag of a generated type-hint entry
(`PythonGenerator.type_hint`): `"native"`, `"enum"`, `"parse"` or
`"class"`. -/
inductive Ctor where
  | cNative : Ctor
  | cEnum : Ctor
  | cParse : Ctor
  | cClass : Ctor
deriving DecidableEq

open Ctor

/-- One entry of the generated `TypeHints` dictionary for a field: the hint
type's `__name__`, the constructor tag, the enum member names
(`possibleValues`, empty unless `ctor == "enum"`), and the
optional/isArray/isAbstract flags. -/
structure FieldInfo where
  typeName : String
  ctor : Ctor
  possibleValues : List String
  optional : Bool
  isArray : Bool
  isAbstract : Bool
deriving DecidableEq

/-- Class-level data of the generated model classes, passed explicitly:
`hints` is the `TypeHints` dictionary (class name, ordered field dict),
`children` the `_children` registries of abstract families (the generator
names each concrete variant class after its `Kind` value, so the registry
keys coincide with the class names), and `keyed` the key-field lists backing
the generated `key()` / `parseKey` methods (a class appears iff it is
keyed). -/
structure Schema where
  hints : List (String × List (String × FieldInfo))
  children : List (String × List String)
  keyed : List (String × List String)

/-- Python `dict.update`: common keys keep their position and take the new
value, new keys are appended in their own order. -/
def dictUpdate {α : Type} (base upd : List (String × α)) : List (String × α) :=
  base.map (fun p => match upd.lookup p.1 with
    | some w => (p.1, w)
    | none => p) ++
  upd.filter (fun p => (base.lookup p.1).isNone)

/-- Whether a class is keyed, i.e. the generated class has the `key` /
`keyed` / `parseKey` attributes (`hasattr(type, "key")`). -/
def keyedClass (s : Schema) (n : String) : Bool :=
  (s.keyed.lookup n).isSome

/-- The generated `key()` method (`PythonGenerator.gen_key`): the `str()`
forms of the key fields joined by `-`.  `none` models the `AttributeError`
raised when the object has no such method or lacks a key field. -/
def pyKey (s : Schema) : PyVal → Option String
  | vStruct n fs => do
      let kf ← s.keyed.lookup n
      let vals ← mapMOpt (fun f => (fs.lookup f).map pyStr) kf
      some (String.intercalate "-" vals)
  | _ => none

/-- A single change of a change set (`Diff` in the source): a path, an
optional added value and an optional removed value. -/
structure Diff where
  Path : String
  Add : Option PyVal
  Remove : Option PyVal
deriving DecidableEq

/-- An ordered change set (`DiffSet` in the source). -/
structure DiffSet where
  changes : List Diff
deriving DecidableEq

/-- The first keyed element of a `TypedList` whose `key()` equals the path
component — the search loop of `_get_element_by_path_array`.  Elements whose
class is not keyed are skipped (`hasattr(elem, "keyed")`); a failing `key()`
call aborts (`none`); no match models the trailing `RuntimeError`. -/
def findKeyedElem (s : Schema) (comp : String) : List PyVal → Option PyVal
  | [] => none
  | e :: rest =>
      match e with
      | vStruct n _ =>
          if keyedClass s n then
            match pyKey s e with
            | none => none
            | some k => if k == comp then some e else findKeyedElem s comp rest
          else findKeyedElem s comp rest
      | _ => findKeyedElem s comp rest

/-- Resolve a possibly `Variant::field`-prefixed component against a struct:
the component-handling of `_get_element_by_path_array` (checks the object's
`Kind` against the variant name and strips the prefix). -/
def structComponent (obj : PyVal) (comp0 : String) : Option String :=
  match pySplitOn "::" comp0 with
  | variant :: c :: _ => do
      let kind ← pyGetattr obj "Kind"
      if !pyTruthy kind then none
      else
        match kind with
        | vStr kname => if kname == variant then some c else none
        | _ => none
  | _ => some comp0

/-- Embeds `_get_element_by_path_array`: resolve a component list against a node.
Struct components may carry a `Variant::field` prefix, checked against the
object's `Kind`; `TypedList` components are composite keys.  `none` models
every raised exception (`RuntimeError`, `AttributeError`, `TypeError`). -/
def getElementByPathArray (s : Schema) : List String → PyVal → Option PyVal
  | [], _ => none
  | comp0 :: rest, obj =>
      match obj with
      | vList _ elems => do
          let e ← findKeyedElem s comp0 elems
          if rest.isEmpty then some e else getElementByPathArray s rest e
      | vStruct _ fs => do
          let comp ← structComponent obj comp0
          match fs.find? (fun p => comp0 == p.1 || comp == p.1) with
          | some p => if rest.isEmpty then some p.2 else getElementByPathArray s rest p.2
          | none => none
      | _ => none

/-- Embeds `_get_element_by_path`: `/` resolves to the object itself, otherwise the
path is split on `/` and its leading empty component dropped. -/
def getElementByPath (s : Schema) (path : String) (obj : PyVal) : Option PyVal :=
  if path == "/" then some obj
  else getElementByPathArray s ((pySplitOn "/" path).drop 1) obj

/-- Embeds `_get_type_info`: resolve the type-hint entry a path designates, starting
from a root class name.  Recursion is on fuel because the source re-joins and
re-splits the path at every step.  Mirrors the source's quirks: the leading
component is dropped only when the split has more than one part; a
`Variant::` prefix whose variant name contains the substring `Type` merges
the variant's hints via the `Prototype` / `Kind` lookup; for a keyed array
whose element class parses keys, a `Kind` key field selects the specialized
child class.  (The in-place `root_hint.update` mutation of the global hints
dictionary is modelled as a call-local merge.) -/
def getTypeInfoFuel (s : Schema) : Nat → String → String → Option FieldInfo
  | 0, _, _ => none
  | fuel + 1, path, root => do
      let parts0 := pySplitOn "/" path
      let parts := if parts0.length > 1 then parts0.drop 1 else parts0
      let rootHint ← s.hints.lookup root
      match parts with
      | [] => none
      | comp0 :: restParts => do
          let (comp, compositeType) :=
            match pySplitOn "::" comp0 with
            | a :: b :: _ => (b, some a)
            | _ => (comp0, (none : Option String))
          let rootHint' ←
            match compositeType with
            | some ct =>
                if (pySplitOn "Type" ct).length > 1 then do
                  match rootHint.lookup "Prototype" with
                  | some protoInfo => do
                      let cs ← s.children.lookup protoInfo.typeName
                      if cs.contains ct then do
                        let ctHint ← s.hints.lookup ct
                        some (dictUpdate rootHint ctHint)
                      else none
                  | none =>
                      match rootHint.lookup "Kind" with
                      | some kindInfo =>
                          if kindInfo.possibleValues.contains ct then do
                            let cs ← s.children.lookup root
                            if cs.contains ct then do
                              let ctHint ← s.hints.lookup ct
                              some (dictUpdate rootHint ctHint)
                            else none
                          else none
                      | none => none
                else some rootHint
            | none => some rootHint
          let info ← rootHint'.lookup comp
          if restParts.isEmpty then some info
          else
            if info.isArray && info.ctor == cParse && keyedClass s info.typeName then do
              let key := restParts.headD ""
              let keyFields ← s.keyed.lookup info.typeName
              let keyParts := pySplitOn "-" key
              if keyFields.contains "Kind" then do
                let kindVal ← keyParts.get? (keyFields.indexOf "Kind")
                let cs ← s.children.lookup info.typeName
                if cs.contains kindVal then
                  getTypeInfoFuel s fuel (String.intercalate "/" restParts) kindVal
                else none
              else
                getTypeInfoFuel s fuel (String.intercalate "/" restParts) info.typeName
            else
              let dropCount := if info.isArray then 2 else 1
              getTypeInfoFuel s fuel (String.intercalate "/" (parts.drop dropCount))
                info.typeName

/-- Embeds `_can_compare`: scalar-like hint types compared directly by `==`. -/
def canCompare (fi : FieldInfo) : Bool :=
  if fi.typeName == "str" && fi.isArray then false
  else fi.typeName == "str" || fi.typeName == "Reference" ||
    fi.typeName == "Identifier" || fi.typeName == "MetaAddress"

/-- Remove the first element equal to `x` (`list.index` + `del`); `none`
models the `ValueError` when no element is equal. -/
def removeFirstEq (x : PyVal) : List PyVal → Option (List PyVal)
  | [] => none
  | e :: rest =>
      if e == x then some rest
      else (removeFirstEq x rest).map (fun r => e :: r)

/-- The plain-sequence (non-keyed) branch of `_make_diff_subtree`: pop each
old element, consume the first equal element of the remaining new sequence if
any (no change), else emit a remove-only change; whatever remains of the new
sequence afterwards becomes add-only changes. -/
def plainSeqDiff (pfx : String) : List PyVal → List PyVal → List Diff
  | [], newRem => newRem.map (fun e => ⟨pfx, some e, none⟩)
  | h :: t, newRem =>
      match removeFirstEq h newRem with
      | some newRem' => plainSeqDiff pfx t newRem'
      | none => ⟨pfx, none, some h⟩ :: plainSeqDiff pfx t newRem

/-- Python dict insertion for `{e.key(): e for e in xs}`: an existing key
keeps its position and takes the new value, a new key is appended. -/
def insertKeyed (m : List (String × PyVal)) (k : String) (v : PyVal) :
    List (String × PyVal) :=
  if (m.lookup k).isSome then
    m.map (fun p => if p.1 == k then (p.1, v) else p)
  else m ++ [(k, v)]

/-- Build the key → element dict of a keyed collection; `none` models the
exception raised when an element has no `key()`. -/
def buildKeyMapAux (s : Schema) (acc : List (String × PyVal)) :
    List PyVal → Option (List (String × PyVal))
  | [] => some acc
  | e :: rest => do
      let k ← pyKey s e
      buildKeyMapAux s (insertKeyed acc k e) rest

def buildKeyMap (s : Schema) (xs : List PyVal) : Option (List (String × PyVal)) :=
  buildKeyMapAux s [] xs

/-- The upcast/`info_object` computation at the head of `_make_diff_subtree`:
for an abstract hint the base hint dict is (when the old object's class is a
registered concrete variant) merged with the variant's own, flagging the
upcast; otherwise the type's hint dict (defaulting to the empty dict). -/
def upcastInfo (s : Schema) (ti : FieldInfo) (objOld : PyVal) :
    Option (List (String × FieldInfo) × Bool) :=
  if ti.isAbstract then do
    let cs ← s.children.lookup ti.typeName
    let baseInfo ← s.hints.lookup ti.typeName
    if cs.contains (pyType objOld) then do
      let derivedHint ← s.hints.lookup (pyType objOld)
      some (dictUpdate baseInfo derivedHint, true)
    else some (baseInfo, false)
  else some ((s.hints.lookup ti.typeName).getD [], false)

/-- View a value as a `TypedList` (base class and elements); anything else
raises when iterated or popped (`none`). -/
def asTypedList : PyVal → Option (String × List PyVal)
  | vList b es => some (b, es)
  | _ => none

/-- The `f"{obj_old.Kind}::{key}"` path component used for fields compared
under an upcast; the raw field name otherwise. -/
def upcastKey (upcast : Bool) (objOld : PyVal) (key : String) : Option String :=
  if upcast then do
    let kind ← pyGetattr objOld "Kind"
    some (pyStr kind ++ "::" ++ key)
  else some key

/-- Embeds `_make_diff_subtree`.  Fuel-indexed because the Python recursion follows
arbitrary getattr chains; `none` is exhausted fuel or a raised exception.
Mirrors the source branch for branch: the early `type(old) is not type(new)`
bail-out returning no changes; the upcast merge of an abstract family's hint
dict with the concrete variant's (`upcastInfo`); the keyed-collection branch
over key maps; the plain-sequence multiset branch; and the per-field loop
with its presence-transition, native, `_can_compare` and recursive cases (the
presence-transition changes use the raw field name in the path, while the
compared/recursive cases use the `Kind::field` form when upcast). -/
def mkDiffSubtree (s : Schema) :
    Nat → PyVal → PyVal → String → FieldInfo → Bool → Option (List Diff)
  | 0, _, _, _, _, _ => none
  | fuel + 1, objOld, objNew, pfx, ti, inArray =>
      if pyType objOld != pyType objNew then some []
      else do
        let (infoObject, upcast) ← upcastInfo s ti objOld
        if ti.isArray && !inArray then
          if keyedClass s ti.typeName then do
            let (_, olds) ← asTypedList objOld
            let (_, news) ← asTypedList objNew
            let mapOld ← buildKeyMap s olds
            let mapNew ← buildKeyMap s news
            let part1 ← mapMOpt (fun p =>
              match mapNew.lookup p.1 with
              | some v' =>
                  if pyTruthy v' then
                    mkDiffSubtree s fuel p.2 v' (pfx ++ "/" ++ p.1) ti true
                  else some [⟨pfx, none, some p.2⟩]
              | none => some [⟨pfx, none, some p.2⟩]) mapOld
            let commonKeys := (mapOld.filter
              (fun p => optTruthy (mapNew.lookup p.1))).map Prod.fst
            let part2 := (mapNew.filter
              (fun p => !commonKeys.contains p.1)).map
                (fun p => (⟨pfx, some p.2, none⟩ : Diff))
            some (part1.flatten ++ part2)
          else do
            let (_, olds) ← asTypedList objOld
            let (_, news) ← asTypedList objNew
            some (plainSeqDiff pfx olds news)
        else do
          let parts ← mapMOpt (fun q => do
            let key := q.1
            let fi := q.2
            let oldV ← pyGetattr objOld key
            let newV ← pyGetattr objNew key
            let newKey ← upcastKey upcast objOld key
            let keyPfx := pfx ++ "/" ++ newKey
            if !pyTruthy oldV && pyTruthy newV && !fi.isArray then
              some [(⟨pfx ++ "/" ++ key, some newV, none⟩ : Diff)]
            else if pyTruthy oldV && !pyTruthy newV && !fi.isArray then
              some [(⟨pfx ++ "/" ++ key, none, some oldV⟩ : Diff)]
            else if !pyTruthy oldV && !pyTruthy newV && !fi.isArray then
              some []
            else if fi.ctor == cNative && !fi.isArray then
              some (if oldV != newV then [(⟨keyPfx, some newV, some oldV⟩ : Diff)] else [])
            else if canCompare fi then
              some (if oldV != newV then [(⟨keyPfx, some newV, some oldV⟩ : Diff)] else [])
            else
              mkDiffSubtree s fuel oldV newV keyPfx fi false) infoObject
          some parts.flatten

/-- Embeds `_make_diff`: diff two documents from a synthetic root type-hint entry. -/
def mkDiff (s : Schema) (fuel : Nat) (objOld objNew : PyVal) (rootType : String) :
    Option DiffSet :=
  (mkDiffSubtree s fuel objOld objNew "" ⟨rootType, cClass, [], false, false, false⟩
    false).map DiffSet.mk

/-- The per-change body of the `_validate_diff` loop.  `some true` means the
change passes, `some false` that the loop returns `False`, `none` a raised
exception (unresolvable path or type info).  Array-typed targets check
element membership by `==`; other targets compare `str()` forms for a remove
and require a truthy current value for an add+remove pair. -/
def perChangeCheck (s : Schema) (gti : String → Option FieldInfo) (obj : PyVal)
    (d : Diff) : Option Bool := do
  let target ← getElementByPath s d.Path obj
  let info ← gti d.Path
  if info.isArray then
    let remOk :=
      if optTruthy d.Remove then
        match target with
        | vList _ es => !(es.filter (fun e => e == d.Remove.getD vNone)).isEmpty
        | _ => false
      else true
    if !remOk then some false
    else
      let addBad :=
        optTruthy d.Add &&
          (match target with
          | vList _ es => !(es.filter (fun e => e == d.Add.getD vNone)).isEmpty
          | _ => false)
      if addBad then some false else some true
  else
    if optTruthy d.Remove && pyStr target != pyStr (d.Remove.getD vNone) then
      some false
    else if optTruthy d.Add && optTruthy d.Remove && !pyTruthy target then
      some false
    else some true

/-- Embeds `_validate_diff`: every change is checked against the *original* document;
the first failing change makes the whole validation return `False`. -/
def validateDiffGo (s : Schema) (gti : String → Option FieldInfo) (obj : PyVal) :
    List Diff → Option Bool
  | [] => some true
  | d :: rest =>
      match perChangeCheck s gti obj d with
      | none => none
      | some false => some false
      | some true => validateDiffGo s gti obj rest

def validateDiff (s : Schema) (gti : String → Option FieldInfo) (obj : PyVal)
    (ds : DiffSet) : Option Bool :=
  validateDiffGo s gti obj ds.changes

/-- Update the first keyed element whose `key()` equals the component: the
pure counterpart of mutating the element `_get_element_by_path_array` finds. -/
def updateFirstKeyed (s : Schema) (comp : String) (f : PyVal → Option PyVal) :
    List PyVal → Option (List PyVal)
  | [] => none
  | e :: rest =>
      match e with
      | vStruct n _ =>
          if keyedClass s n then
            match pyKey s e with
            | none => none
            | some k =>
                if k == comp then (f e).map (fun e' => e' :: rest)
                else (updateFirstKeyed s comp f rest).map (fun r => e :: r)
          else (updateFirstKeyed s comp f rest).map (fun r => e :: r)
      | _ => (updateFirstKeyed s comp f rest).map (fun r => e :: r)

/-- Rebuild a document with `f` applied to the node a component list
designates: the pure counterpart of mutating the alias returned by
`_get_element_by_path_array` (same navigation, first matching field or keyed
element). -/
def updateByPathArray (s : Schema) :
    List String → PyVal → (PyVal → Option PyVal) → Option PyVal
  | [], _, _ => none
  | comp0 :: rest, obj, f =>
      match obj with
      | vList b elems =>
          (updateFirstKeyed s comp0
            (fun e => if rest.isEmpty then f e else updateByPathArray s rest e f)
            elems).map (fun es => vList b es)
      | vStruct n fs => do
          let comp ← structComponent obj comp0
          match fs.find? (fun p => comp0 == p.1 || comp == p.1) with
          | some p => do
              let newV ←
                if rest.isEmpty then f p.2 else updateByPathArray s rest p.2 f
              some (vStruct n (fs.map (fun q => if q.1 == p.1 then (q.1, newV) else q)))
          | none => none
      | _ => none

/-- Path-level wrapper of `updateByPathArray`, matching
`_get_element_by_path`'s treatment of `/` and of the leading component. -/
def updateElemByPath (s : Schema) (path : String) (obj : PyVal)
    (f : PyVal → Option PyVal) : Option PyVal :=
  if path == "/" then f obj
  else updateByPathArray s ((pySplitOn "/" path).drop 1) obj f

/-- The `setattr` pair `_apply_diff` performs on the parent of a scalar
target: `None` for a remove, then the added value for a non-empty add. -/
def scalarSetter (d : Diff) (element : String) (parent : PyVal) : Option PyVal := do
  let p1 ←
    if optTruthy d.Remove then pySetattr parent element vNone else some parent
  if optTruthy d.Add && !(d.Add.getD vNone == vStr "") then
    pySetattr p1 element (d.Add.getD vNone)
  else some p1

/-- Apply `setter` at the parent position `_get_parent_element_by_path`
resolves for `path`: the whole document when the parent path is empty, the
node at the joined parent path when it has several components, and — for a
single component — the matching field of the root, or the root itself when no
field matches. -/
def applyAtParent (s : Schema) (root : PyVal) (path : String)
    (setter : PyVal → Option PyVal) : Option PyVal :=
  let pp := ((pySplitOn "/" path).drop 1).dropLast
  if pp.isEmpty then setter root
  else if pp.length > 1 then
    updateElemByPath s ("/" ++ String.intercalate "/" pp) root setter
  else
    match root with
    | vStruct n fs =>
        match fs.find? (fun p => p.1 == pp.headD "") with
        | some p =>
            (setter p.2).map (fun v' =>
              vStruct n (fs.map (fun q => if q.1 == p.1 then (q.1, v') else q)))
        | none => setter root
    | _ => none

/-- One iteration of the `_apply_diff` loop on the copied document: a
`TypedList` target has the matching element deleted (`none` when the Python
`idx` would be unbound or stale) and/or the added element appended; any other
target is rewritten through its parent with `setattr`. -/
def applyOneChange (s : Schema) (root : PyVal) (d : Diff) : Option PyVal := do
  let target ← getElementByPath s d.Path root
  match target with
  | vList _ _ =>
      updateElemByPath s d.Path root (fun node =>
        match node with
        | vList b es => do
            let es1 ←
              if optTruthy d.Remove then removeFirstEq (d.Remove.getD vNone) es
              else some es
            some (vList b (if optTruthy d.Add then es1 ++ [d.Add.getD vNone] else es1))
        | _ => none)
  | _ =>
      let revParts := (pySplitOn "/" d.Path).reverse
      let e0 := revParts.headD ""
      let element :=
        match pySplitOn "::" e0 with
        | _ :: b :: _ => b
        | _ => e0
      applyAtParent s root d.Path (scalarSetter d element)

/-- Embeds `_apply_diff`: validate first — a failed validation returns
`(False, None)` with the input untouched; then apply every change in order to
the (deep-copied, here: pure) document. -/
def applyDiff (s : Schema) (obj : PyVal) (ds : DiffSet)
    (validate : PyVal → DiffSet → Option Bool) : Option (Bool × Option PyVal) := do
  let v ← validate obj ds
  if !v then some (false, none)
  else do
    let newObj ← foldlMOpt (applyOneChange s) obj ds.changes
    some (true, some newObj)

/-- Embeds `construct_type`: hydrate a raw scalar into a typed value.  Values that
are not raw strings are returned unchanged ("already constructed"); raw
mappings (hydrated through `from_dict`) are outside this model.  `bool(s)`
is Python's truthiness of the string — `bool("False")` is `True`. -/
def constructType (info : FieldInfo) (d : PyVal) : Option PyVal :=
  match d with
  | vStr str =>
      match info.ctor with
      | cEnum => if info.possibleValues.contains str then some (vStr str) else none
      | cNative =>
          match info.typeName with
          | "str" => some (vStr str)
          | "int" => (pyParseInt str).map (fun n => vInt n)
          | "bool" => some (vBool (str != ""))
          | _ => none
      | cParse => some (vStr str)
      | cClass => none
  | _ => some d

/-- Embeds `_parse_diff`: hydrate every change of a parsed change set; entries whose
`Add` and `Remove` are both falsy produce nothing (the `if`/`elif` chain has
no `else`), but their path's type info is still resolved. -/
def parseDiffGo (gti : String → Option FieldInfo) : List Diff → Option (List Diff)
  | [] => some []
  | d :: rest => do
      let info ← gti d.Path
      let newHead ←
        if optTruthy d.Add && optTruthy d.Remove then do
          let a ← constructType info (d.Add.getD vNone)
          let r ← constructType info (d.Remove.getD vNone)
          some [(⟨d.Path, some a, some r⟩ : Diff)]
        else if optTruthy d.Remove then do
          let r ← constructType info (d.Remove.getD vNone)
          some [(⟨d.Path, none, some r⟩ : Diff)]
        else if optTruthy d.Add then do
          let a ← constructType info (d.Add.getD vNone)
          some [(⟨d.Path, some a, none⟩ : Diff)]
        else some []
      let rest' ← parseDiffGo gti rest
      some (newHead ++ rest')

def parseDiff (ds : DiffSet) (gti : String → Option FieldInfo) : Option DiffSet :=
  (parseDiffGo gti ds.changes).map DiffSet.mk

/-- The hydration of one *kept* entry of `_parse_diff` (an entry with at
least one truthy side); used to state what `_parse_diff` produces for the
entries it does not drop. -/
def parseEntryKept (gti : String → Option FieldInfo) (d : Diff) : Option Diff := do
  let info ← gti d.Path
  if optTruthy d.Add && optTruthy d.Remove then do
    let a ← constructType info (d.Add.getD vNone)
    let r ← constructType info (d.Remove.getD vNone)
    some ⟨d.Path, some a, some r⟩
  else if optTruthy d.Remove then do
    let r ← constructType info (d.Remove.getD vNone)
    some ⟨d.Path, none, some r⟩
  else if optTruthy d.Add then do
    let a ← constructType info (d.Add.getD vNone)
    some ⟨d.Path, some a, none⟩
  else none

/-- Embeds `PythonGenerator.default_value`: the declared default of a generated
field — `""` for references and strings, `[]` for sequences, `False` / `0`
for bools and ints, `None` for upcastable fields, the default-constructed
value for enums (`Invalid`); default-constructed plain structs are not
modelled. -/
def generatorDefault (fi : FieldInfo) : Option PyVal :=
  if fi.typeName == "Reference" then some (vStr "")
  else if fi.isArray then some (vList fi.typeName [])
  else
    match fi.ctor with
    | cNative =>
        match fi.typeName with
        | "str" => some (vStr "")
        | "bool" => some (vBool false)
        | "int" => some (vInt 0)
        | _ => none
    | cEnum => some (vStr "Invalid")
    | cParse => if fi.isAbstract then some vNone else none
    | cClass => none

/-! ## A concrete generated model

A small instantiation of the generated classes, used for witnesses and
counterexamples: a root `Binary` with a scalar `Name`, a keyed collection
`Functions` of `Function(Key, Val)` keyed by `Key`, a plain string sequence
`Tags`, and an abstract (upcastable) field `TheType` of family `TypeDef`
with concrete variants `TypeA` / `TypeB` discriminated by `Kind`. -/

def strNativeInfo : FieldInfo := ⟨"str", Ctor.cNative, [], false, false, false⟩

def funcArrayInfo : FieldInfo := ⟨"Function", Ctor.cClass, [], false, true, false⟩

def strArrayInfo : FieldInfo := ⟨"str", Ctor.cNative, [], false, true, false⟩

def typeDefInfo : FieldInfo := ⟨"TypeDef", Ctor.cParse, [], true, false, true⟩

def kindEnumInfo : FieldInfo :=
  ⟨"str", Ctor.cEnum, ["Invalid", "TypeA", "TypeB"], false, false, false⟩

def demoSchema : Schema :=
  ⟨[("Binary",
      [("Name", strNativeInfo), ("Functions", funcArrayInfo),
        ("Tags", strArrayInfo), ("TheType", typeDefInfo)]),
    ("Function", [("Key", strNativeInfo), ("Val", strNativeInfo)]),
    ("TypeDef", [("Kind", kindEnumInfo)]),
    ("TypeA", [("Kind", kindEnumInfo), ("ValA", strNativeInfo)]),
    ("TypeB", [("Kind", kindEnumInfo), ("ValB", strNativeInfo)])],
   [("TypeDef", ["TypeA", "TypeB"])],
   [("Function", ["Key"])]⟩

def mkBinary (name : PyVal) (funcs : List PyVal) (tags : List PyVal)
    (ty : PyVal) : PyVal :=
  vStruct "Binary"
    [("Name", name), ("Functions", vList "Function" funcs),
      ("Tags", vList "str" tags), ("TheType", ty)]

def mkFunction (k v : String) : PyVal :=
  vStruct "Function" [("Key", vStr k), ("Val", vStr v)]

def mkTypeA (valA : String) : PyVal :=
  vStruct "TypeA" [("Kind", vStr "TypeA"), ("ValA", vStr valA)]

def mkTypeB (valB : String) : PyVal :=
  vStruct "TypeB" [("Kind", vStr "TypeB"), ("ValB", vStr valB)]

/-- The `get_type_info` closure of `revng/model/v1/__init__.py`, instantiated
for the demo model. -/
def gtiDemo (path : String) : Option FieldInfo :=
  getTypeInfoFuel demoSchema 32 path "Binary"

/-! ## Supporting documents for witnesses and counterexamples -/

def flatSchema : Schema := ⟨[("Flat", [("Name", strNativeInfo)])], [], []⟩

def flatDoc (a : String) : PyVal := vStruct "Flat" [("Name", vStr a)]

def gtiFlat (path : String) : Option FieldInfo :=
  getTypeInfoFuel flatSchema 8 path "Flat"

def vdFlat : PyVal → DiffSet → Option Bool := validateDiff flatSchema gtiFlat

def vdDemo : PyVal → DiffSet → Option Bool := validateDiff demoSchema gtiDemo

def binFoo : PyVal :=
  mkBinary (vStr "foo") [mkFunction "a" "1"] [vStr "t"] (mkTypeA "x")

def binEmptyName : PyVal :=
  mkBinary (vStr "") [mkFunction "a" "1"] [vStr "t"] (mkTypeA "x")

def binNoneName : PyVal :=
  mkBinary vNone [mkFunction "a" "1"] [vStr "t"] (mkTypeA "x")

def binTyA : PyVal := mkBinary (vStr "n") [] [] (mkTypeA "x")

def binTyB : PyVal := mkBinary (vStr "n") [] [] (mkTypeB "y")

theorem parseDiffGo_filter (gti : String → Option FieldInfo) (l : List Diff)
    (h : ∀ d ∈ l, (gti d.Path).isSome) :
    parseDiffGo gti l =
      mapMOpt (parseEntryKept gti)
        (l.filter (fun d => optTruthy d.Add || optTruthy d.Remove)) := by
  induction l with
  | nil => simp [parseDiffGo, mapMOpt]
  | cons d rest ih =>
    have hd : (gti d.Path).isSome := h d (by simp)
    obtain ⟨info, hinfo⟩ := Option.isSome_iff_exists.mp hd
    have ih' := ih (fun d' hd' => h d' (by simp [hd']))
    by_cases hA : optTruthy d.Add = true <;> by_cases hR : optTruthy d.Remove = true
    · simp only [parseDiffGo, parseEntryKept, hinfo, hA, hR, List.filter, Option.bind_eq_bind,
        Option.some_bind, if_true, Bool.and_self, Bool.or_self, mapMOpt]
      cases hca : constructType info (d.Add.getD vNone) with
      | none => simp [hca]
      | some a =>
        cases hcr : constructType info (d.Remove.getD vNone) with
        | none => simp [hca, hcr]
        | some r => simp [hca, hcr, ih']
    · simp only [parseDiffGo, parseEntryKept, hinfo, hA, hR, List.filter, Option.bind_eq_bind,
        Option.some_bind, if_true, if_false, Bool.and_false, Bool.or_false, mapMOpt]
      cases hca : constructType info (d.Add.getD vNone) with
      | none => simp [hca]
      | some a => simp [hca, ih']
    · simp only [parseDiffGo, parseEntryKept, hinfo, hA, hR, List.filter, Option.bind_eq_bind,
        Option.some_bind, if_true, if_false, Bool.false_and, Bool.false_or, mapMOpt]
      cases hcr : constructType info (d.Remove.getD vNone) with
      | none => simp [hcr]
      | some r => simp [hcr, ih']
    · simp only [parseDiffGo, parseEntryKept, hinfo, hA, hR, List.filter, Option.bind_eq_bind,
        Option.some_bind, if_false, Bool.false_and, Bool.false_or, mapMOpt]
      simp [ih']


theorem filter_beq_isEmpty (es : List PyVal) (x : PyVal) :
    (es.filter (fun e => e == x)).isEmpty = true ↔ ∀ e ∈ es, e ≠ x := by
  induction es with
  | nil => simp
  | cons e r ih =>
    by_cases he : e = x <;> simp [List.filter_cons, he, ih]

/-- C5: for a change resolving to a keyed collection (array-typed hint,
`TypedList` target), the `_validate_diff` check passes exactly when a remove
has an equal element present and an add has no equal element present. -/
theorem C5_keyed_collection_validation (s : Schema) (gti : String → Option FieldInfo)
    (obj : PyVal) (d : Diff) (info : FieldInfo) (b : String) (es : List PyVal)
    (hinfo : gti d.Path = some info) (harr : info.isArray = true)
    (htgt : getElementByPath s d.Path obj = some (vList b es)) :
    perChangeCheck s gti obj d = some true ↔
      ((optTruthy d.Remove = true → ∃ e ∈ es, e = d.Remove.getD vNone) ∧
       (optTruthy d.Add = true → ¬ ∃ e ∈ es, e = d.Add.getD vNone)) := by
  have hrem := filter_beq_isEmpty es (d.Remove.getD vNone)
  have hadd := filter_beq_isEmpty es (d.Add.getD vNone)
  simp only [perChangeCheck, htgt, hinfo, harr, Option.bind_eq_bind, Option.some_bind,
    if_true]
  by_cases hR : optTruthy d.Remove = true <;> by_cases hA : optTruthy d.Add = true <;>
    simp only [hR, hA, if_true, if_false, Bool.true_and, Bool.false_and, forall_const,
      Bool.false_eq_true, false_implies, true_and, and_true, implies_true] <;>
    cases hre : (es.filter (fun e => e == d.Remove.getD vNone)).isEmpty <;>
    cases had : (es.filter (fun e => e == d.Add.getD vNone)).isEmpty <;>
    simp_all <;> try tauto

/-- C4 (amended): for a change resolving to a scalar/struct field, the
`_validate_diff` check passes exactly when any removed value's textual form
equals the target's, and — for an add+remove pair — the current value is
truthy.  An add-only change is always valid: the source never compares the
added value against the current field, so the claimed "add-only is valid iff
the field is currently empty/default" does not hold (see the
counterexample). -/
theorem C4_scalar_validation_amended (s : Schema) (gti : String → Option FieldInfo)
    (obj : PyVal) (d : Diff) (info : FieldInfo) (target : PyVal)
    (hinfo : gti d.Path = some info) (harr : info.isArray = false)
    (htgt : getElementByPath s d.Path obj = some target) :
    perChangeCheck s gti obj d = some true ↔
      ((optTruthy d.Remove = true → pyStr target = pyStr (d.Remove.getD vNone)) ∧
       (optTruthy d.Add = true ∧ optTruthy d.Remove = true → pyTruthy target = true)) := by
  simp only [perChangeCheck, htgt, hinfo, harr, Option.bind_eq_bind, Option.some_bind,
    if_false, Bool.false_eq_true]
  by_cases hR : optTruthy d.Remove = true <;> by_cases hA : optTruthy d.Add = true <;>
    by_cases hs : pyStr target = pyStr (d.Remove.getD vNone) <;>
    cases ht : pyTruthy target <;>
    simp_all

theorem validateDiffGo_false (s : Schema) (gti : String → Option FieldInfo)
    (obj : PyVal) (l : List Diff)
    (hres : ∀ d ∈ l, perChangeCheck s gti obj d ≠ none)
    (hbad : ∃ d ∈ l, perChangeCheck s gti obj d = some false) :
    validateDiffGo s gti obj l = some false := by
  induction l with
  | nil => simp at hbad
  | cons d rest ih =>
    cases hc : perChangeCheck s gti obj d with
    | none => exact absurd hc (hres d (by simp))
    | some v =>
      cases v with
      | false => simp [validateDiffGo, hc]
      | true =>
        simp only [validateDiffGo, hc]
        apply ih (fun d' hd' => hres d' (by simp [hd']))
        obtain ⟨d', hd', hfd⟩ := hbad
        rcases List.mem_cons.mp hd' with h | h
        · subst h; rw [hc] at hfd; exact absurd hfd (by simp)
        · exact ⟨d', h, hfd⟩

/-- C2: if any change of the set fails its validation check (and no check
raises), `_apply_diff` returns `(False, None)`: validation runs every check
against the original document before anything is applied, so the input root
is untouched — in this pure embedding `applyDiff` returns no document at
all, mirroring the Python code's early return before the deep copy. -/
theorem C2_apply_invalid_atomic (s : Schema) (gti : String → Option FieldInfo)
    (obj : PyVal) (ds : DiffSet)
    (hres : ∀ d ∈ ds.changes, perChangeCheck s gti obj d ≠ none)
    (hbad : ∃ d ∈ ds.changes, perChangeCheck s gti obj d = some false) :
    applyDiff s obj ds (validateDiff s gti) = some (false, none) := by
  have hv : validateDiff s gti obj ds = some false :=
    validateDiffGo_false s gti obj ds.changes hres hbad
  simp [applyDiff, hv]

/-- C7 (amended): when the two sides of a node have different concrete
classes (in particular, different concrete variants of an abstract family),
`_make_diff_subtree` returns the *empty* change list for that node: no
field-level changes, and no replacement change either — the differing node
contributes nothing to the change set (the claimed "the replacement itself
is recorded" does not hold, see the counterexample). -/
theorem C7_variant_mismatch_amended (s : Schema) (fuel : Nat) (o n : PyVal)
    (pfx : String) (ti : FieldInfo) (ia : Bool) (hne : pyType o ≠ pyType n) :
    mkDiffSubtree s (fuel + 1) o n pfx ti ia = some [] := by
  have : (pyType o != pyType n) = true := by simp [hne]
  simp [mkDiffSubtree, this]



theorem removeFirstEq_cons_pos (x e : PyVal) (r : List PyVal) (he : e = x) :
    removeFirstEq x (e :: r) = some r := by
  simp only [removeFirstEq]
  rw [if_pos (by simp [he])]

theorem removeFirstEq_cons_neg (x e : PyVal) (r : List PyVal) (he : ¬e = x) :
    removeFirstEq x (e :: r) = (removeFirstEq x r).map (fun l => e :: l) := by
  simp only [removeFirstEq]
  rw [if_neg (by simp [he])]

theorem removeFirstEq_none (x : PyVal) (l : List PyVal) :
    removeFirstEq x l = none ↔ x ∉ l := by
  induction l with
  | nil => simp [removeFirstEq]
  | cons e r ih =>
    by_cases he : e = x
    · rw [removeFirstEq_cons_pos x e r he]
      simp [he]
    · rw [removeFirstEq_cons_neg x e r he]
      cases hr : removeFirstEq x r with
      | none => simp [ih.mp hr, Ne.symm he, he]
      | some r' =>
        have hx : x ∈ r := by
          by_contra hxr
          rw [← ih] at hxr
          rw [hxr] at hr
          cases hr
        simp [hx]

theorem removeFirstEq_count (x : PyVal) (l l' : List PyVal)
    (h : removeFirstEq x l = some l') :
    ∀ v, l.count v = l'.count v + (if v = x then 1 else 0) := by
  induction l generalizing l' with
  | nil => exact Option.noConfusion h
  | cons e r ih =>
    intro v
    by_cases he : e = x
    · rw [removeFirstEq_cons_pos x e r he] at h
      cases h
      subst he
      by_cases hv : v = e <;> simp [List.count_cons, hv]
    · rw [removeFirstEq_cons_neg x e r he] at h
      cases hr : removeFirstEq x r with
      | none => rw [hr] at h; cases h
      | some r'' =>
        rw [hr] at h
        injection h with h
        subst h
        have hcnt := ih r'' hr v
        simp only [List.count_cons, beq_iff_eq]
        by_cases hv : v = e <;> by_cases hvx : v = x <;>
          simp [hv, hvx] at hcnt ⊢ <;> omega

theorem removeFirstEq_sub (x : PyVal) (l l' : List PyVal)
    (h : removeFirstEq x l = some l') : ∀ v ∈ l', v ∈ l := by
  induction l generalizing l' with
  | nil => exact Option.noConfusion h
  | cons e r ih =>
    by_cases he : e = x
    · rw [removeFirstEq_cons_pos x e r he] at h
      cases h
      intro v hv
      exact List.mem_cons_of_mem _ hv
    · rw [removeFirstEq_cons_neg x e r he] at h
      cases hr : removeFirstEq x r with
      | none => rw [hr] at h; cases h
      | some r'' =>
        rw [hr] at h
        injection h with h
        subst h
        intro v hv
        rcases List.mem_cons.mp hv with h | h
        · simp [h]
        · exact List.mem_cons_of_mem _ (ih r'' hr v h)

theorem plainSeqDiff_adds_count (pfx : String) (v : PyVal) (new : List PyVal) :
    (new.map (fun e => (⟨pfx, some e, none⟩ : Diff))).count ⟨pfx, some v, none⟩ =
      new.count v := by
  induction new with
  | nil => simp
  | cons e r ih =>
    simp only [List.map_cons, List.count_cons, ih, beq_iff_eq, Diff.mk.injEq,
      Option.some.injEq]
    by_cases hv : v = e <;> simp [hv]

theorem plainSeqDiff_remove_count (pfx : String) (old new : List PyVal) (v : PyVal) :
    (plainSeqDiff pfx old new).count ⟨pfx, none, some v⟩ =
      old.count v - new.count v := by
  induction old generalizing new with
  | nil =>
    simp only [plainSeqDiff, List.count_nil, Nat.zero_sub]
    rw [List.count_eq_zero]
    simp
  | cons h t ih =>
    cases hr : removeFirstEq h new with
    | some new' =>
      have hcnt := removeFirstEq_count h new new' hr v
      simp only [plainSeqDiff, hr, ih, List.count_cons]
      rcases eq_or_ne v h with rfl | hv
      · simp at hcnt ⊢ <;> omega
      · simp [hv, Ne.symm hv] at hcnt ⊢ <;> omega
    | none =>
      have hnot := (removeFirstEq_none h new).mp hr
      have hz : new.count h = 0 := List.count_eq_zero.mpr hnot
      simp only [plainSeqDiff, hr, List.count_cons, ih, beq_iff_eq, Diff.mk.injEq,
        Option.some.injEq]
      rcases eq_or_ne v h with rfl | hv
      · simp at hz ⊢ <;> omega
      · simp [hv, Ne.symm hv] at hz ⊢ <;> omega

theorem plainSeqDiff_add_count (pfx : String) (old new : List PyVal) (v : PyVal) :
    (plainSeqDiff pfx old new).count ⟨pfx, some v, none⟩ =
      new.count v - old.count v := by
  induction old generalizing new with
  | nil => simp [plainSeqDiff, plainSeqDiff_adds_count]
  | cons h t ih =>
    cases hr : removeFirstEq h new with
    | some new' =>
      have hcnt := removeFirstEq_count h new new' hr v
      simp only [plainSeqDiff, hr, ih, List.count_cons]
      rcases eq_or_ne v h with rfl | hv
      · simp at hcnt ⊢ <;> omega
      · simp [hv, Ne.symm hv] at hcnt ⊢ <;> omega
    | none =>
      have hnot := (removeFirstEq_none h new).mp hr
      have hz : new.count h = 0 := List.count_eq_zero.mpr hnot
      simp only [plainSeqDiff, hr, List.count_cons, ih, beq_iff_eq, Diff.mk.injEq]
      rcases eq_or_ne v h with rfl | hv
      · simp at hz ⊢ <;> omega
      · simp [hv, Ne.symm hv] at hz ⊢ <;> omega

theorem plainSeqDiff_shape (pfx : String) (old new : List PyVal) :
    ∀ d ∈ plainSeqDiff pfx old new,
      (∃ v ∈ old, d = ⟨pfx, none, some v⟩) ∨ (∃ v ∈ new, d = ⟨pfx, some v, none⟩) := by
  induction old generalizing new with
  | nil =>
    intro d hd
    simp only [plainSeqDiff, List.mem_map] at hd
    obtain ⟨v, hv, rfl⟩ := hd
    exact Or.inr ⟨v, hv, rfl⟩
  | cons h t ih =>
    intro d hd
    cases hr : removeFirstEq h new with
    | some new' =>
      rw [plainSeqDiff, hr] at hd
      rcases ih new' d hd with ⟨v, hv, rfl⟩ | ⟨v, hv, rfl⟩
      · exact Or.inl ⟨v, List.mem_cons_of_mem _ hv, rfl⟩
      · exact Or.inr ⟨v, removeFirstEq_sub h new new' hr v hv, rfl⟩
    | none =>
      rw [plainSeqDiff, hr] at hd
      rcases List.mem_cons.mp hd with rfl | hd'
      · exact Or.inl ⟨h, by simp, rfl⟩
      · rcases ih new d hd' with ⟨v, hv, rfl⟩ | ⟨v, hv, rfl⟩
        · exact Or.inl ⟨v, List.mem_cons_of_mem _ hv, rfl⟩
        · exact Or.inr ⟨v, hv, rfl⟩

theorem mapMOpt_flatten_nil {α : Type} (g : α → Option (List Diff)) (l : List α)
    (ls : List (List Diff)) (hg : ∀ a ∈ l, ∀ y, g a = some y → y = [])
    (h : mapMOpt g l = some ls) : ls.flatten = [] := by
  induction l generalizing ls with
  | nil =>
    simp only [mapMOpt, Option.some.injEq] at h
    subst h
    rfl
  | cons a r ih =>
    simp only [mapMOpt, Option.bind_eq_bind, Option.bind_eq_some,
      Option.some.injEq] at h
    obtain ⟨b, hb, rs, hrs, heq⟩ := h
    have hbnil := hg a (by simp) b hb
    have hrsnil := ih rs (fun a' ha' y hy => hg a' (by simp [ha']) y hy) hrs
    subst heq
    simp [hbnil, hrsnil]

theorem plainSeqDiff_self (pfx : String) (l : List PyVal) :
    plainSeqDiff pfx l l = [] := by
  induction l with
  | nil => rfl
  | cons e r ih =>
    rw [plainSeqDiff, removeFirstEq_cons_pos e e r rfl]
    exact ih

theorem pyKey_truthy (s : Schema) (e : PyVal) (k : String) (h : pyKey s e = some k) :
    pyTruthy e = true := by
  cases e <;> simp [pyKey, pyTruthy] at h ⊢

theorem lookup_isNone_iff (m : List (String × PyVal)) (k : String) :
    (m.lookup k).isNone = true ↔ k ∉ m.map Prod.fst := by
  induction m with
  | nil => simp
  | cons p r ih =>
    obtain ⟨k', v'⟩ := p
    rcases eq_or_ne k k' with rfl | hk
    · simp [List.lookup_cons]
    · have hbe : (k == k') = false := by simp [hk]
      simp [List.lookup_cons, hbe, ih, hk]

theorem lookup_mem_nodup (m : List (String × PyVal))
    (hnd : (m.map Prod.fst).Nodup) (k : String) (v : PyVal) (hm : (k, v) ∈ m) :
    m.lookup k = some v := by
  induction m with
  | nil => simp at hm
  | cons p r ih =>
    obtain ⟨k', v'⟩ := p
    simp only [List.map_cons, List.nodup_cons] at hnd
    rcases List.mem_cons.mp hm with heq | hm'
    · rw [Prod.mk.injEq] at heq
      obtain ⟨rfl, rfl⟩ := heq
      simp [List.lookup_cons]
    · have hk : k ≠ k' := by
        rintro rfl
        exact hnd.1 (List.mem_map.mpr ⟨(k, v), hm', rfl⟩)
      have hbe : (k == k') = false := by simp [hk]
      simp only [List.lookup_cons, hbe]
      exact ih hnd.2 hm'

theorem insertKeyed_fst (m : List (String × PyVal)) (k : String) (v : PyVal) :
    (insertKeyed m k v).map Prod.fst =
      if (m.lookup k).isSome then m.map Prod.fst else m.map Prod.fst ++ [k] := by
  by_cases h : (m.lookup k).isSome
  · rw [insertKeyed, if_pos h, if_pos h, List.map_map]
    apply List.map_congr_left
    intro p _
    by_cases hp : p.1 == k <;> simp at hp <;> simp [hp]
  · rw [insertKeyed, if_neg h, if_neg h]
    simp

theorem insertKeyed_mem (m : List (String × PyVal)) (k : String) (v : PyVal) :
    ∀ p ∈ insertKeyed m k v, p ∈ m ∨ p = (k, v) := by
  intro p hp
  rw [insertKeyed] at hp
  by_cases h : (m.lookup k).isSome
  · rw [if_pos h] at hp
    obtain ⟨q, hq, hqe⟩ := List.mem_map.mp hp
    by_cases hqk : q.1 = k
    · right
      rw [← hqe]
      simp [hqk]
    · left
      rw [← hqe]
      simp [hqk, hq]
  · rw [if_neg h] at hp
    rcases List.mem_append.mp hp with h1 | h1
    · exact Or.inl h1
    · simp at h1
      exact Or.inr h1

theorem buildKeyMapAux_nodup (s : Schema) (xs : List PyVal) :
    ∀ acc m, (acc.map Prod.fst).Nodup → buildKeyMapAux s acc xs = some m →
      (m.map Prod.fst).Nodup := by
  induction xs with
  | nil =>
    intro acc m hnd h
    simp only [buildKeyMapAux, Option.some.injEq] at h
    subst h
    exact hnd
  | cons e r ih =>
    intro acc m hnd h
    simp only [buildKeyMapAux, Option.bind_eq_bind, Option.bind_eq_some] at h
    obtain ⟨k, hk, hrec⟩ := h
    apply ih (insertKeyed acc k e) m _ hrec
    rw [insertKeyed_fst]
    by_cases hl : (acc.lookup k).isSome
    · simp [hl, hnd]
    · have hknot : k ∉ acc.map Prod.fst := by
        rw [← lookup_isNone_iff]
        simp [Option.not_isSome_iff_eq_none.mp hl]
      simp only [hl, if_false]
      simp [List.nodup_append, hnd, hknot]

theorem buildKeyMapAux_truthy (s : Schema) (xs : List PyVal) :
    ∀ acc m, (∀ p ∈ acc, pyTruthy p.2 = true) →
      buildKeyMapAux s acc xs = some m → ∀ p ∈ m, pyTruthy p.2 = true := by
  induction xs with
  | nil =>
    intro acc m hacc h
    simp only [buildKeyMapAux, Option.some.injEq] at h
    subst h
    exact hacc
  | cons e r ih =>
    intro acc m hacc h
    simp only [buildKeyMapAux, Option.bind_eq_bind, Option.bind_eq_some] at h
    obtain ⟨k, hk, hrec⟩ := h
    apply ih (insertKeyed acc k e) m _ hrec
    intro p hp
    rcases insertKeyed_mem acc k e p hp with h1 | h1
    · exact hacc p h1
    · rw [h1]
      exact pyKey_truthy s e k hk

theorem mkDiffSubtree_self : ∀ (fuel : Nat) (s : Schema) (x : PyVal) (pfx : String)
    (ti : FieldInfo) (ia : Bool) (r : List Diff),
    mkDiffSubtree s fuel x x pfx ti ia = some r → r = [] := by
  intro fuel
  induction fuel with
  | zero =>
    intro s x pfx ti ia r h
    exact Option.noConfusion h
  | succ fuel ih =>
    intro s x pfx ti ia r h
    rw [mkDiffSubtree] at h
    simp only [bne_self_eq_false, Bool.false_eq_true, if_false, Option.bind_eq_bind,
      Option.bind_eq_some] at h
    obtain ⟨⟨io, up⟩, hE, h⟩ := h
    by_cases harr : (ti.isArray && !ia) = true
    · rw [if_pos harr] at h
      by_cases hk : keyedClass s ti.typeName = true
      · rw [if_pos hk] at h
        simp only [Option.bind_eq_bind, Option.bind_eq_some, Option.some.injEq] at h
        obtain ⟨po, hx1, pn, hx2, m, hm, m2, hm2, part1, hp1, hr⟩ := h
        rw [hx1] at hx2
        injection hx2 with hx2
        subst hx2
        rw [hm] at hm2
        injection hm2 with hm2
        subst hm2
        have hnd := buildKeyMapAux_nodup s po.2 [] m (by simp) hm
        have htr := buildKeyMapAux_truthy s po.2 [] m (by simp) hm
        have hlk : ∀ p ∈ m, m.lookup p.1 = some p.2 := by
          intro p hp
          exact lookup_mem_nodup m hnd p.1 p.2 (by simpa using hp)
        have hflat : part1.flatten = [] := by
          apply mapMOpt_flatten_nil _ m part1 _ hp1
          intro p hp y hy
          rw [hlk p hp] at hy
          simp only [htr p hp, if_true] at hy
          exact ih s p.2 (pfx ++ "/" ++ p.1) ti true y hy
        have hfilter : m.filter (fun p => optTruthy (m.lookup p.1)) = m := by
          apply List.filter_eq_self.mpr
          intro p hp
          rw [hlk p hp]
          simpa [optTruthy] using htr p hp
        subst hr
        rw [hflat, hfilter]
        simp only [List.nil_append]
        rw [List.map_eq_nil_iff, List.filter_eq_nil_iff]
        intro p hp
        have hmem : p.1 ∈ m.map Prod.fst := List.mem_map.mpr ⟨p, hp, rfl⟩
        simp [hmem]
      · rw [if_neg hk] at h
        simp only [Option.bind_eq_bind, Option.bind_eq_some, Option.some.injEq] at h
        obtain ⟨po, hx1, pn, hx2, hr⟩ := h
        rw [hx1] at hx2
        injection hx2 with hx2
        subst hx2
        rw [← hr]
        exact plainSeqDiff_self pfx po.2
    · rw [if_neg harr] at h
      simp only [Option.bind_eq_bind, Option.bind_eq_some, Option.some.injEq] at h
      obtain ⟨parts, hparts, hr⟩ := h
      rw [← hr]
      apply mapMOpt_flatten_nil _ io parts _ hparts
      intro q hq y hy
      simp only [Option.bind_eq_bind, Option.bind_eq_some] at hy
      obtain ⟨oldV, ho, newV, ho2, nk, hnk, hy⟩ := hy
      rw [ho] at ho2
      injection ho2 with ho2
      subst ho2
      have hc1 : (!pyTruthy oldV && pyTruthy oldV && !q.2.isArray) = false := by
        cases pyTruthy oldV <;> simp
      have hc2 : (pyTruthy oldV && !pyTruthy oldV && !q.2.isArray) = false := by
        cases pyTruthy oldV <;> simp
      rw [hc1, hc2, bne_self_eq_false] at hy
      simp only [Bool.false_eq_true, if_false] at hy
      by_cases h3 : (!pyTruthy oldV && !pyTruthy oldV && !q.2.isArray) = true
      · rw [if_pos h3] at hy
        injection hy with hy
        exact hy.symm
      · rw [if_neg h3] at hy
        by_cases h4 : (q.2.ctor == Ctor.cNative && !q.2.isArray) = true
        · rw [if_pos h4] at hy
          simp only [if_neg (by simp : ¬False), Option.some.injEq] at hy
          exact hy.symm
        · rw [if_neg h4] at hy
          by_cases h5 : canCompare q.2 = true
          · rw [if_pos h5] at hy
            simp only [if_neg (by simp : ¬False), Option.some.injEq] at hy
            exact hy.symm
          · rw [if_neg h5] at hy
            exact ih s oldV (pfx ++ "/" ++ nk) q.2 false y hy

theorem getElem_flat (a : String) :
    getElementByPath flatSchema "/Name" (flatDoc a) = some (vStr a) := by
  have h1 : (("/Name" == "/") = false) := by decide
  have h2 : pySplitOn "/" "/Name" = ["", "Name"] := by decide
  have h3 : pySplitOn "::" "Name" = ["Name"] := by decide
  rw [getElementByPath, if_neg (by simp [h1]), h2]
  show getElementByPathArray flatSchema ["Name"] (flatDoc a) = some (vStr a)
  simp only [getElementByPathArray, flatDoc, structComponent, h3]
  simp [List.find?]


set_option maxHeartbeats 1000000 in
theorem mkDiff_flat (a b : String) :
    mkDiff flatSchema 2 (flatDoc a) (flatDoc b) "Flat" =
      some ⟨if a == "" then
              (if b == "" then [] else [⟨"/Name", some (vStr b), none⟩])
            else if b == "" then [⟨"/Name", none, some (vStr a)⟩]
            else if a == b then []
            else [⟨"/Name", some (vStr b), some (vStr a)⟩]⟩ := by
  rw [mkDiff]
  rw [show (2 : Nat) = 1 + 1 from rfl]
  rw [mkDiffSubtree]
  simp only [flatDoc, pyType, bne_self_eq_false, Bool.false_eq_true, if_false,
    Option.bind_eq_bind]
  rw [show upcastInfo flatSchema ⟨"Flat", Ctor.cClass, [], false, false, false⟩
    (vStruct "Flat" [("Name", vStr a)]) = some ([("Name", strNativeInfo)], false)
    from rfl]
  simp only [Option.some_bind]
  by_cases ha : a = ""
  · subst ha
    by_cases hb : b = ""
    · subst hb
      simp [mapMOpt, pyGetattr, upcastKey, strNativeInfo, pyTruthy, List.lookup]
    · have hbt : (b != "") = true := by simp [hb]
      simp [mapMOpt, pyGetattr, upcastKey, strNativeInfo, pyTruthy, hbt, hb,
        List.lookup]
  · have hat : (a != "") = true := by simp [ha]
    by_cases hb : b = ""
    · subst hb
      simp [mapMOpt, pyGetattr, upcastKey, strNativeInfo, pyTruthy, hat, ha,
        List.lookup]
    · have hbt : (b != "") = true := by simp [hb]
      by_cases hab : a = b
      · subst hab
        simp [mapMOpt, pyGetattr, upcastKey, strNativeInfo, pyTruthy, hat, ha,
          List.lookup]
      · have hne : (vStr a != vStr b) = true := by simp [hab]
        simp [mapMOpt, pyGetattr, upcastKey, strNativeInfo, pyTruthy, hat, hbt,
          ha, hb, hab, hne, List.lookup]

theorem applyDiff_nil_flat (x : PyVal) :
    applyDiff flatSchema x ⟨[]⟩ vdFlat = some (true, some x) := rfl

theorem gtiFlat_Name : gtiFlat "/Name" = some strNativeInfo := by decide

theorem apply_addonly_flat (b : String) (hb : ¬ b = "") :
    applyDiff flatSchema (flatDoc "") ⟨[⟨"/Name", some (vStr b), none⟩]⟩ vdFlat =
      some (true, some (flatDoc b)) := by
  have hbt : (b != "") = true := by simp [hb]
  have hpc : perChangeCheck flatSchema gtiFlat (flatDoc "")
      ⟨"/Name", some (vStr b), none⟩ = some true := by
    rw [perChangeCheck, getElem_flat "", gtiFlat_Name]
    simp [optTruthy, strNativeInfo]
  have hval : vdFlat (flatDoc "") ⟨[⟨"/Name", some (vStr b), none⟩]⟩ = some true := by
    simp only [vdFlat, validateDiff, validateDiffGo, hpc]
  have happ : applyOneChange flatSchema (flatDoc "")
      ⟨"/Name", some (vStr b), none⟩ = some (flatDoc b) := by
    rw [applyOneChange, getElem_flat ""]
    simp only [Option.some_bind]
    show scalarSetter ⟨"/Name", some (vStr b), none⟩ "Name" (flatDoc "") =
      some (flatDoc b)
    rw [scalarSetter]
    simp only [flatDoc, pySetattr]
    simp [optTruthy, pyTruthy, hbt, hb, List.lookup]
  simp only [applyDiff, hval, Option.bind_eq_bind, Option.some_bind, Bool.not_true,
    Bool.false_eq_true, if_false, foldlMOpt, happ]

theorem apply_replace_flat (a b : String) (ha : ¬ a = "") (hb : ¬ b = "") :
    applyDiff flatSchema (flatDoc a)
      ⟨[⟨"/Name", some (vStr b), some (vStr a)⟩]⟩ vdFlat =
      some (true, some (flatDoc b)) := by
  have hat : (a != "") = true := by simp [ha]
  have hbt : (b != "") = true := by simp [hb]
  have hpc : perChangeCheck flatSchema gtiFlat (flatDoc a)
      ⟨"/Name", some (vStr b), some (vStr a)⟩ = some true := by
    rw [perChangeCheck, getElem_flat a, gtiFlat_Name]
    simp [optTruthy, strNativeInfo, pyStr, pyTruthy, hat, hbt]
  have hval : vdFlat (flatDoc a) ⟨[⟨"/Name", some (vStr b), some (vStr a)⟩]⟩ =
      some true := by
    simp only [vdFlat, validateDiff, validateDiffGo, hpc]
  have happ : applyOneChange flatSchema (flatDoc a)
      ⟨"/Name", some (vStr b), some (vStr a)⟩ = some (flatDoc b) := by
    rw [applyOneChange, getElem_flat a]
    simp only [Option.some_bind]
    show scalarSetter ⟨"/Name", some (vStr b), some (vStr a)⟩ "Name" (flatDoc a) =
      some (flatDoc b)
    rw [scalarSetter]
    simp only [flatDoc, pySetattr]
    simp [optTruthy, pyTruthy, hat, hbt, hb, List.lookup]
  simp only [applyDiff, hval, Option.bind_eq_bind, Option.some_bind, Bool.not_true,
    Bool.false_eq_true, if_false, foldlMOpt, happ]

/-- C1 (amended): `apply(old, diff(old, new)) == (true, new)` holds for
documents whose fields are native scalars when no non-empty field value is
cleared to the empty value (`a = b ∨ b ≠ ""` on the single field of the flat
model): the diff is empty, an add-only change, or a replace, and applying it
to `old` validates and reproduces `new` exactly.  As stated the claim is
false on the code — a remove-only scalar change sets the field to `None`
rather than the declared default, so the patched document differs from `new`
(see the counterexample). -/
theorem C1_patch_roundtrip_amended (a b : String) (h : a = b ∨ b ≠ "") :
    ∃ ds, mkDiff flatSchema 2 (flatDoc a) (flatDoc b) "Flat" = some ds ∧
      applyDiff flatSchema (flatDoc a) ds vdFlat = some (true, some (flatDoc b)) := by
  by_cases hab : a = b
  · subst hab
    refine ⟨⟨[]⟩, ?_, applyDiff_nil_flat (flatDoc a)⟩
    rw [mkDiff_flat]
    by_cases ha : a = "" <;> simp [ha]
  · have hb : ¬ b = "" := by
      rcases h with h | h
      · exact absurd h hab
      · exact h
    by_cases ha : a = ""
    · subst ha
      refine ⟨⟨[⟨"/Name", some (vStr b), none⟩]⟩, ?_, apply_addonly_flat b hb⟩
      rw [mkDiff_flat]
      simp [hb]
    · refine ⟨⟨[⟨"/Name", some (vStr b), some (vStr a)⟩]⟩, ?_,
        apply_replace_flat a b ha hb⟩
      rw [mkDiff_flat]
      simp [ha, hb, hab]

theorem C1_patch_roundtrip_witness :
    (("x" : String) = "y" ∨ ("y" : String) ≠ "") ∧
    (∃ ds, mkDiff flatSchema 2 (flatDoc "x") (flatDoc "y") "Flat" = some ds ∧
      applyDiff flatSchema (flatDoc "x") ds vdFlat =
        some (true, some (flatDoc "y"))) :=
  ⟨Or.inr (by decide), C1_patch_roundtrip_amended "x" "y" (Or.inr (by decide))⟩

/-- C1 counterexample: for `old` with `Name = "foo"` and `new` with
`Name = ""`, the computed diff is a remove-only change, applying it succeeds
— but the result carries `Name = None`, which is not structurally equal to
`new`'s `Name = ""`, refuting `apply(old, diff(old, new)) == (true, new)`. -/
theorem C1_patch_roundtrip_counterexample :
    mkDiff demoSchema 10 binFoo binEmptyName "Binary" =
      some ⟨[⟨"/Name", none, some (vStr "foo")⟩]⟩ ∧
    applyDiff demoSchema binFoo ⟨[⟨"/Name", none, some (vStr "foo")⟩]⟩ vdDemo =
      some (true, some binNoneName) ∧
    binNoneName ≠ binEmptyName := by
  refine ⟨by decide, by decide, by decide⟩

theorem C2_apply_invalid_witness :
    (∀ d ∈ (DiffSet.mk [⟨"/Name", none, some (vStr "nope")⟩]).changes,
      perChangeCheck demoSchema gtiDemo binFoo d ≠ none) ∧
    (∃ d ∈ (DiffSet.mk [⟨"/Name", none, some (vStr "nope")⟩]).changes,
      perChangeCheck demoSchema gtiDemo binFoo d = some false) ∧
    applyDiff demoSchema binFoo ⟨[⟨"/Name", none, some (vStr "nope")⟩]⟩
      (validateDiff demoSchema gtiDemo) = some (false, none) :=
  ⟨by decide, by decide,
    C2_apply_invalid_atomic demoSchema gtiDemo binFoo _ (by decide) (by decide)⟩

/-- C3 (code bug): the add-side validation of `_validate_diff` compares whole
elements, not keys, so adding `Function(Key="a", Val="2")` to a collection
already holding `Function(Key="a", Val="1")` validates and applies — the
resulting keyed collection holds two distinct elements with the same key
`"a"`, violating the keyed-collection uniqueness invariant the spec states. -/
theorem C3_duplicate_key_bug :
    vdDemo binFoo ⟨[⟨"/Functions", some (mkFunction "a" "2"), none⟩]⟩ = some true ∧
    applyDiff demoSchema binFoo
        ⟨[⟨"/Functions", some (mkFunction "a" "2"), none⟩]⟩ vdDemo =
      some (true, some (mkBinary (vStr "foo")
        [mkFunction "a" "1", mkFunction "a" "2"] [vStr "t"] (mkTypeA "x"))) ∧
    pyKey demoSchema (mkFunction "a" "1") = some "a" ∧
    pyKey demoSchema (mkFunction "a" "2") = some "a" ∧
    mkFunction "a" "1" ≠ mkFunction "a" "2" := by
  refine ⟨by decide, by decide, by decide, by decide, by decide⟩

/-- C4 counterexample: an add-only change onto the non-empty scalar field
`Name = "foo"` passes validation — the code never requires an add-only
target to be empty/default, contradicting the claim. -/
theorem C4_addonly_counterexample :
    getElementByPath demoSchema "/Name" binFoo = some (vStr "foo") ∧
    pyTruthy (vStr "foo") = true ∧
    (gtiDemo "/Name").map FieldInfo.isArray = some false ∧
    perChangeCheck demoSchema gtiDemo binFoo ⟨"/Name", some (vStr "bar"), none⟩ =
      some true := by
  refine ⟨by decide, by decide, by decide, by decide⟩

theorem C4_scalar_validation_witness :
    gtiDemo "/Name" = some strNativeInfo ∧ strNativeInfo.isArray = false ∧
    getElementByPath demoSchema "/Name" binFoo = some (vStr "foo") ∧
    (perChangeCheck demoSchema gtiDemo binFoo
        ⟨"/Name", some (vStr "bar"), some (vStr "foo")⟩ = some true ↔
      ((optTruthy (some (vStr "foo")) = true →
          pyStr (vStr "foo") = pyStr ((some (vStr "foo")).getD vNone)) ∧
       (optTruthy (some (vStr "bar")) = true ∧ optTruthy (some (vStr "foo")) = true →
          pyTruthy (vStr "foo") = true))) :=
  ⟨by decide, by decide, by decide,
    C4_scalar_validation_amended demoSchema gtiDemo binFoo
      ⟨"/Name", some (vStr "bar"), some (vStr "foo")⟩ strNativeInfo (vStr "foo")
      (by decide) (by decide) (by decide)⟩

theorem C5_keyed_collection_witness :
    gtiDemo "/Functions" = some funcArrayInfo ∧ funcArrayInfo.isArray = true ∧
    getElementByPath demoSchema "/Functions" binFoo =
      some (vList "Function" [mkFunction "a" "1"]) ∧
    (perChangeCheck demoSchema gtiDemo binFoo
        ⟨"/Functions", some (mkFunction "b" "2"), some (mkFunction "a" "1")⟩ =
          some true ↔
      ((optTruthy (some (mkFunction "a" "1")) = true →
          ∃ e ∈ [mkFunction "a" "1"],
            e = (some (mkFunction "a" "1")).getD vNone) ∧
       (optTruthy (some (mkFunction "b" "2")) = true →
          ¬ ∃ e ∈ [mkFunction "a" "1"],
            e = (some (mkFunction "b" "2")).getD vNone))) :=
  ⟨by decide, by decide, by decide,
    C5_keyed_collection_validation demoSchema gtiDemo binFoo
      ⟨"/Functions", some (mkFunction "b" "2"), some (mkFunction "a" "1")⟩
      funcArrayInfo "Function" [mkFunction "a" "1"]
      (by decide) (by decide) (by decide)⟩

/-- C6 (code bug): applying a valid remove-only change on the string field
`Name` sets it to `None`, but the generated declared default for a string
field (`PythonGenerator.default_value`) is `""` — the code does not clear
the field to its declared default as the spec states. -/
theorem C6_remove_clears_to_none_bug :
    vdDemo binFoo ⟨[⟨"/Name", none, some (vStr "foo")⟩]⟩ = some true ∧
    applyDiff demoSchema binFoo ⟨[⟨"/Name", none, some (vStr "foo")⟩]⟩ vdDemo =
      some (true, some binNoneName) ∧
    pyGetattr binNoneName "Name" = some vNone ∧
    generatorDefault strNativeInfo = some (vStr "") ∧
    (vNone : PyVal) ≠ vStr "" := by
  refine ⟨by decide, by decide, by decide, by decide, by decide⟩

/-- C7 counterexample: two documents that differ only in the concrete
variant of the abstract field `TheType` (`TypeA` vs `TypeB`) produce the
*empty* change set — no replacement is recorded anywhere, contradicting "the
replacement itself is recorded in the change set". -/
theorem C7_variant_replace_counterexample :
    pyGetattr binTyA "TheType" = some (mkTypeA "x") ∧
    pyGetattr binTyB "TheType" = some (mkTypeB "y") ∧
    pyType (mkTypeA "x") ≠ pyType (mkTypeB "y") ∧
    (gtiDemo "/TheType").map FieldInfo.isAbstract = some true ∧
    binTyA ≠ binTyB ∧
    mkDiff demoSchema 10 binTyA binTyB "Binary" = some ⟨[]⟩ := by
  refine ⟨by decide, by decide, by decide, by decide, by decide, by decide⟩

theorem C7_variant_mismatch_witness :
    pyType (mkTypeA "x") ≠ pyType (mkTypeB "y") ∧
    mkDiffSubtree demoSchema (9 + 1) (mkTypeA "x") (mkTypeB "y") "/TheType"
      typeDefInfo false = some [] :=
  ⟨by decide,
    C7_variant_mismatch_amended demoSchema 9 (mkTypeA "x") (mkTypeB "y")
      "/TheType" typeDefInfo false (by decide)⟩

/-- C8: the plain (non-keyed) sequence diff is an order-insensitive multiset
difference — for every value, the number of remove-only changes emitted is
the truncated difference of old and new multiplicities, the number of
add-only changes the converse difference, and every emitted change is a
remove of an old element or an add of a new element at the sequence's own
path. -/
theorem C8_plain_sequence_multiset (pfx : String) (old new : List PyVal) :
    (∀ v, (plainSeqDiff pfx old new).count ⟨pfx, none, some v⟩ =
        old.count v - new.count v) ∧
    (∀ v, (plainSeqDiff pfx old new).count ⟨pfx, some v, none⟩ =
        new.count v - old.count v) ∧
    (∀ d ∈ plainSeqDiff pfx old new,
      (∃ v ∈ old, d = ⟨pfx, none, some v⟩) ∨
      (∃ v ∈ new, d = ⟨pfx, some v, none⟩)) :=
  ⟨fun v => plainSeqDiff_remove_count pfx old new v,
   fun v => plainSeqDiff_add_count pfx old new v,
   plainSeqDiff_shape pfx old new⟩

theorem C8_plain_sequence_witness :
    (plainSeqDiff "/Tags" [vStr "a"] [vStr "a", vStr "a"]).count
        ⟨"/Tags", some (vStr "a"), none⟩ = 1 ∧
    (plainSeqDiff "/Tags" [vStr "a", vStr "b"] [vStr "b"]).count
        ⟨"/Tags", none, some (vStr "a")⟩ = 1 := by
  constructor
  · have h :=
      (C8_plain_sequence_multiset "/Tags" [vStr "a"] [vStr "a", vStr "a"]).2.1
        (vStr "a")
    rw [h]
    decide
  · have h :=
      (C8_plain_sequence_multiset "/Tags" [vStr "a", vStr "b"] [vStr "b"]).1
        (vStr "a")
    rw [h]
    decide

/-- C9: whenever the diff of a document against itself terminates, the
resulting change set is empty: `diff(x, x) == []`. -/
theorem C9_diff_self_empty (fuel : Nat) (s : Schema) (x : PyVal)
    (rootType : String) (ds : DiffSet) (h : mkDiff s fuel x x rootType = some ds) :
    ds = ⟨[]⟩ := by
  rw [mkDiff] at h
  rcases hmap : mkDiffSubtree s fuel x x ""
      ⟨rootType, Ctor.cClass, [], false, false, false⟩ false with _ | r
  · rw [hmap] at h
    exact Option.noConfusion h
  · rw [hmap] at h
    injection h with h
    rw [← h, mkDiffSubtree_self fuel s x "" _ false r hmap]

theorem C9_diff_self_witness :
    mkDiff demoSchema 10 binFoo binFoo "Binary" = some ⟨[]⟩ ∧
    (⟨[]⟩ : DiffSet) = ⟨[]⟩ :=
  ⟨by decide, C9_diff_self_empty 10 demoSchema binFoo "Binary" ⟨[]⟩ (by decide)⟩

/-- C10 (amended): `_parse_diff` keeps exactly the entries with at least one
*truthy* `Add`/`Remove` (each hydrated through `construct_type`), in their
original order, and drops the rest — including entries whose `Add` or
`Remove` is present but falsy (e.g. an empty string), which the claim as
stated would keep (see the counterexample).  The type info of dropped
entries' paths is still resolved, hence the hypothesis. -/
theorem C10_parse_filter_amended (gti : String → Option FieldInfo) (ds : DiffSet)
    (h : ∀ d ∈ ds.changes, (gti d.Path).isSome) :
    parseDiff ds gti =
      (mapMOpt (parseEntryKept gti)
        (ds.changes.filter (fun d => optTruthy d.Add || optTruthy d.Remove))).map
        DiffSet.mk := by
  rw [parseDiff, parseDiffGo_filter gti ds.changes h]

theorem C10_parse_filter_witness :
    (∀ d ∈ (DiffSet.mk [⟨"/Name", some (vStr "x"), none⟩, ⟨"/Name", none, none⟩,
        ⟨"/Name", none, some (vStr "y")⟩]).changes, (gtiDemo d.Path).isSome) ∧
    parseDiff ⟨[⟨"/Name", some (vStr "x"), none⟩, ⟨"/Name", none, none⟩,
        ⟨"/Name", none, some (vStr "y")⟩]⟩ gtiDemo =
      (mapMOpt (parseEntryKept gtiDemo)
        (([⟨"/Name", some (vStr "x"), none⟩, ⟨"/Name", none, none⟩,
          ⟨"/Name", none, some (vStr "y")⟩] : List Diff).filter
            (fun d => optTruthy d.Add || optTruthy d.Remove))).map DiffSet.mk :=
  ⟨by decide,
    C10_parse_filter_amended gtiDemo
      ⟨[⟨"/Name", some (vStr "x"), none⟩, ⟨"/Name", none, none⟩,
        ⟨"/Name", none, some (vStr "y")⟩]⟩ (by decide)⟩

/-- C10 counterexample: an entry whose `Add` is present but empty
(`Add = ""`) is dropped by `_parse_diff` even though it has one of
`Add`/`Remove`, so the claimed "contains exactly the entries that have at
least one of Add or Remove" fails. -/
theorem C10_parse_drop_counterexample :
    parseDiff ⟨[⟨"/Name", some (vStr ""), none⟩]⟩ gtiDemo = some ⟨[]⟩ ∧
    (⟨"/Name", some (vStr ""), none⟩ : Diff).Add ≠ none := by
  refine ⟨by decide, by decide⟩
